/- Verification of the RVPF native core (C sources under core/src/main/c):
   the PIPE line codec (rvpf_pipe.c), the handle map (HandlesMap.c), the
   typed value codec (CStoreImpl.c), the TLS stream status machine
   (rvpf_ssl.c) and the XPVPC client (rvpf_xpvpc.c), shallowly embedded as
   executable Lean functions. -/
import Mathlib

namespace RVPF

namespace Pipe

/-- Logical state of a PIPE point value.  The C struct holds a `char *state`;
deletion is encoded by pointer identity with the static string `_deletedState`
("DELETED"), which we model as a distinguished constructor. -/
inductive PState where
  | deleted
  | text (s : List Char)
deriving DecidableEq

/-- Characters of a state, as `_pointValueToBuffer` sees them (the sentinel
pointer holds the characters of "DELETED"). -/
def stateChars : PState → List Char
  | .deleted => 'D' :: 'E' :: 'L' :: 'E' :: 'T' :: 'E' :: 'D' :: []
  | .text s => s

/-- The `struct rvpf_pipe_pointValue` record: `pointName`, `stamp`, `state`
and `value` are `char *` fields, nullable except where a parse requires them. -/
structure PointValue where
  pointName : List Char
  stamp : Option (List Char)
  state : Option PState
  value : Option (List Char)
deriving DecidableEq

/-- State-escape step of `_pointValueToBuffer` (rvpf_pipe.c:915-921): for each
state character, `[` is preceded by an extra `]` and `]` by an extra `[`. -/
def stateToBuffer : List Char → List Char
  | [] => []
  | c :: cs =>
    (if c = '[' then [']'] else if c = ']' then ['['] else []) ++ c :: stateToBuffer cs

/-- Value-escape step of `_pointValueToBuffer` (rvpf_pipe.c:929-934): each `"`
in the value is preceded by an extra `"`. -/
def valueToBuffer : List Char → List Char
  | [] => []
  | c :: cs => (if c = '"' then ['"'] else []) ++ c :: valueToBuffer cs

/-- Emission of a point value on one line, from `_pointValueToBuffer`
(rvpf_pipe.c:903-937): name, space, stamp, then an optional ` [state]` with
bracket escapes and an optional ` "value"` with quote escapes.  The C code
dereferences `stamp` unconditionally, so a missing stamp is emitted as the
empty string here. -/
def pointValueToBuffer (pv : PointValue) : List Char :=
  pv.pointName ++ ' ' :: pv.stamp.getD []
    ++ (match pv.state with
        | none => []
        | some st => ' ' :: '[' :: stateToBuffer (stateChars st) ++ [']'])
    ++ (match pv.value with
        | none => []
        | some v => ' ' :: '"' :: valueToBuffer v ++ ['"'])

/-- Skip a run of spaces, as `strspn(…, " ")` does in `_nextField`. -/
def dropSpaces : List Char → List Char
  | [] => []
  | c :: cs => if c = ' ' then dropSpaces cs else c :: cs

/-- Take the characters of a field up to the next space (`strcspn(…, " ")`). -/
def takeField : List Char → List Char
  | [] => []
  | c :: cs => if c = ' ' then [] else c :: takeField cs

/-- Remainder of the line starting at the space which ends the current field. -/
def restField : List Char → List Char
  | [] => []
  | c :: cs => if c = ' ' then c :: cs else restField cs

/-- One `_nextField(buffer, _, false)` call (rvpf_pipe.c:833-860) on the not
yet consumed part of the line: `none` models the NULL return when the position
has reached the limit; otherwise the field and the rest of the line (the
in-place NUL splicing of the C code is equivalent to restarting after the
delimiter). -/
def nextFieldPair (l : List Char) : Option (List Char × List Char) :=
  if l = [] then none else some (takeField (dropSpaces l), restField (dropSpaces l))

/-- One `_nextField(buffer, false, true)` call: the rest of the line after
skipping spaces, without splitting ("last" field). -/
def lastField (l : List Char) : Option (List Char) :=
  if l = [] then none else some (dropSpaces l)

/-- State-field automaton of `_fillPointValue` (rvpf_pipe.c:662-707), started
just after the opening `[`.  Arguments: remaining input, accumulated decoded
state, `leftBracketSeen`, `rightBracketSeen`.  Returns the decoded state and
the rest of the field after the closing bracket (with the character following
the closing bracket discarded and subsequent spaces skipped, exactly as the
`++next; next += strspn(next, " ")` sequence does), or `none` for the
"Invalid format for state field" warning return. -/
def decodeStateLoop : List Char → List Char → Bool → Bool → Option (List Char × List Char)
  | [], acc, _, rBS => if rBS then some (acc, []) else none
  | c :: rest, acc, lBS, rBS =>
    if rBS then
      if c = '[' then decodeStateLoop rest (acc ++ ['[']) lBS false
      else some (acc, dropSpaces rest)
    else if lBS then
      if c = ']' then decodeStateLoop rest (acc ++ [']']) false rBS
      else none
    else if c = '[' then decodeStateLoop rest acc true rBS
    else if c = ']' then decodeStateLoop rest acc lBS true
    else decodeStateLoop rest (acc ++ [c]) lBS rBS

/-- Value-field automaton of `_fillPointValue` (rvpf_pipe.c:710-742), started
just after the opening `"`.  Returns the decoded value, or `none` for the
"Invalid format for value field" warning return (which leaves `value` unset). -/
def decodeValueLoop : List Char → List Char → Bool → Option (List Char)
  | [], acc, qS => if qS then some acc else none
  | c :: rest, acc, qS =>
    if qS then
      if c = '"' then decodeValueLoop rest (acc ++ ['"']) false
      else none
    else if c = '"' then decodeValueLoop rest acc true
    else decodeValueLoop rest (acc ++ [c]) qS

/-- Value / deletion-marker handling at the end of `_fillPointValue`
(rvpf_pipe.c:709-749): a field starting with `"` is decoded as the value, a
field starting with `-` replaces the state with the DELETED sentinel, anything
else is ignored. -/
def fillValueField (name : List Char) (stamp : List Char) (st : Option PState)
    (f : List Char) : PointValue :=
  match f with
  | '"' :: fs =>
    match decodeValueLoop fs [] false with
    | none => ⟨name, some stamp, st, none⟩
    | some v => ⟨name, some stamp, st, some v⟩
  | '-' :: _ => ⟨name, some stamp, some .deleted, none⟩
  | _ => ⟨name, some stamp, st, none⟩

/-- The `_fillPointValue` parser (rvpf_pipe.c:647-750) applied to one line:
`none` models the `rvpf_pipe_error` unwind on a missing required field; a
"warning" return yields a point value with the later fields unset. -/
def fillPointValue (line : List Char) (stampRequired : Bool) : Option PointValue :=
  match nextFieldPair line with
  | none => none
  | some (name, rest1) =>
    match nextFieldPair rest1 with
    | none =>
      if stampRequired then none else some ⟨name, none, none, none⟩
    | some (stamp, rest2) =>
      match lastField rest2 with
      | none => some ⟨name, some stamp, none, none⟩
      | some f =>
        match f with
        | '[' :: fs =>
          match decodeStateLoop fs [] false false with
          | none => some ⟨name, some stamp, none, none⟩
          | some (st, rest3) => some (fillValueField name stamp (some (.text st)) rest3)
        | _ => some (fillValueField name stamp none f)

/-- Summary computation of `rvpf_pipe_endEngineRequest` (rvpf_pipe.c:203-215)
on the mutable result slot and the extra results list. -/
def engineSummary (result : Option PointValue) (extras : List PointValue) : Int :=
  match result with
  | some r =>
    if r.value.isSome ∨ extras.length ≠ 0 then 1 + (extras.length : Int) else 0
  | none =>
    if extras.length ≠ 0 then (extras.length : Int) else -1

/-- Decimal rendering of the summary (`_intToBuffer` uses `snprintf "%i"`). -/
def intToChars (i : Int) : List Char := (toString i).toList

/-- Response emission of `rvpf_pipe_endEngineRequest` (rvpf_pipe.c:217-234):
the `"<requestID> <summary>"` line, then, when the summary is positive, each
extra result in insertion order followed by the seed result if still present. -/
def endEngineRequest (requestID : List Char) (result : Option PointValue)
    (extras : List PointValue) : List (List Char) :=
  let summary := engineSummary result extras
  (requestID ++ ' ' :: intToChars summary)
    :: (if summary > 0 then
          extras.map pointValueToBuffer
            ++ (match result with
                | some r => [pointValueToBuffer r]
                | none => [])
        else [])

/-- Summary as the amended claim C1 words it: -1 when the result was cleared
and no extra results exist; the count of extra results when the result was
cleared and extras exist; 0 when the seed result is still present but carries
no value and there are no extra results; otherwise 1 plus the extra count. -/
def summarySpec (result : Option PointValue) (extras : List PointValue) : Int :=
  match result with
  | none => if extras = [] then -1 else (extras.length : Int)
  | some r => if r.value = none ∧ extras = [] then 0 else 1 + (extras.length : Int)

/-- Per-character state escape as the amended claim C4 words it: `[` becomes
the two-character sequence `][`, `]` becomes `[]`. -/
def escStateSpec (c : Char) : List Char :=
  if c = '[' then [']', '['] else if c = ']' then ['[', ']'] else [c]

/-- Per-character value escape: `"` becomes `""`. -/
def escValueSpec (c : Char) : List Char := if c = '"' then ['"', '"'] else [c]

/-- Whitespace test used by `_nextLine` on buffered characters: `isspace`
restricted to the characters that can actually occur there (`\r` is dropped
before buffering and `\n` ends the line). -/
def isWS (c : Char) : Bool := c = ' ' || c = '\t' || c = '\x0b' || c = '\x0c'

/-- Trailing-whitespace trim performed by `_nextLine` when it sees `\n`. -/
def trimTrailingWS (l : List Char) : List Char := (l.reverse.dropWhile isWS).reverse

/-- The `_nextLine(buffer, false)` loop (rvpf_pipe.c:862-901) over a character
stream: drops `\r`, skips leading whitespace while the buffer is empty, trims
trailing whitespace at `\n`, skips lines that end up blank, and returns `none`
at end of input (dropping a partial buffer with a warning).  Results: the line
(if any) and the unconsumed input. -/
def nextLineAux : List Char → List Char → Option (List Char) × List Char
  | _, [] => (none, [])
  | buf, c :: rest =>
    if c = '\n' then
      if trimTrailingWS buf = [] then nextLineAux [] rest
      else (some (trimTrailingWS buf), rest)
    else if c = '\r' then nextLineAux buf rest
    else if buf = [] ∧ isWS c then nextLineAux [] rest
    else nextLineAux (buf ++ [c]) rest

/-- Buffer accumulated by the `_nextLine` loop over the characters of one raw
line (no `\n` inside): `\r` is dropped, whitespace is skipped while the
buffer is still empty, any other character is appended. -/
def scanBuf : List Char → List Char → List Char
  | buf, [] => buf
  | buf, c :: cs =>
    if c = '\r' then scanBuf buf cs
    else if buf = [] ∧ isWS c then scanBuf [] cs
    else scanBuf (buf ++ [c]) cs

/-- The logical line `_nextLine` makes out of one raw input line: carriage
returns removed, leading whitespace skipped, trailing whitespace trimmed. -/
def processLine (raw : List Char) : List Char := trimTrailingWS (scanBuf [] raw)

/-- The `_firstLine` loop (rvpf_pipe.c:752-768): lines without a space which
are not the termination marker `"0"` are echoed through `_flushBuffer` (line,
newline, flush) and scanning continues.  Results: the emitted standard output,
the first line of the next request (`none` on termination), and the
unconsumed input. -/
def firstLine (input : List Char) : List Char × Option (List Char) × List Char :=
  match h : nextLineAux [] input with
  | (none, rest) => ([], none, rest)
  | (some line, rest) =>
    if ' ' ∈ line then ([], some line, rest)
    else if line = ['0'] then ([], none, rest)
    else
      let r := firstLine rest
      (line ++ '\n' :: r.1, r.2.1, r.2.2)
termination_by input.length
decreasing_by
  have aux : ∀ inp buf l r, nextLineAux buf inp = (some l, r) → r.length < inp.length := by
    intro inp
    induction inp with
    | nil => intro buf l r h0; simp [nextLineAux] at h0
    | cons c rest ih =>
      intro buf l r h0
      simp only [nextLineAux] at h0
      split at h0
      · split at h0
        · exact Nat.lt_succ_of_lt (ih _ _ _ h0)
        · simp at h0; simp [h0.2]
      · split at h0
        · exact Nat.lt_succ_of_lt (ih _ _ _ h0)
        · split at h0
          · exact Nat.lt_succ_of_lt (ih _ _ _ h0)
          · exact Nat.lt_succ_of_lt (ih _ _ _ h0)
  exact aux input [] line rest h

end Pipe

namespace HMap

/-- Hash scramble of `_indexFor` (HandlesMap.c:262-272), on the 32-bit
unsigned `hash_t`; the signed key is first converted to unsigned. -/
def hash32 (key : Int) : Nat :=
  let m : Nat := 4294967296
  let h0 : Nat := (key % (4294967296 : Int)).toNat
  let h1 : Nat := (h0 + ((4294967295 : Nat) - (h0 <<< 9) % m)) % m
  let h2 : Nat := h1 ^^^ (h1 >>> 14)
  let h3 : Nat := (h2 + (h2 <<< 4) % m) % m
  h3 ^^^ (h3 >>> 10)

/-- Bucket index: `hash & (capacity - 1)`. -/
def indexFor (capacity : Nat) (key : Int) : Nat := Nat.land (hash32 key) (capacity - 1)

/-- The `c_store_handles_map` structure: chained buckets (a bucket's head is
the most recently inserted entry), capacity, size and rehash threshold. -/
structure HM where
  table : List (List (Int × Int))
  capacity : Nat
  size : Nat
  threshold : Nat
deriving DecidableEq

/-- The capacity doubling loop of `HandlesMap_create` (`for (cap = 1;
cap < initialCapacity; cap <<= 1)`), with enough fuel for any 32-bit input. -/
def capacityForAux : Nat → Nat → Nat → Nat
  | 0, cap, _ => cap
  | fuel + 1, cap, target =>
    if cap < target then capacityForAux fuel (cap <<< 1) target else cap

/-- `HandlesMap_create` (HandlesMap.c:88-109).  The C initial capacity is
`1 + (int)(initialLoadSize / 0.75)`; the double division by 0.75 equals
`4 * n / 3` up to rounding of the double quotient, which agrees with the
integer value for the small sizes used here.  The threshold
`capacity * 0.75` is exactly `capacity * 3 / 4` for a power-of-two capacity. -/
def HandlesMap_create (initialLoadSize : Nat) : HM :=
  let initialCapacity := 1 + (4 * initialLoadSize) / 3
  let cap := capacityForAux 64 1 initialCapacity
  { table := List.replicate cap [], capacity := cap, size := 0, threshold := cap * 3 / 4 }

/-- Chain walk of `HandlesMap_put` when the key is already present: replace
the value in place, keeping the entry's position. -/
def updateEntry : List (Int × Int) → Int → Int → Option (List (Int × Int))
  | [], _, _ => none
  | (k', v') :: t, k, v =>
    if k' = k then some ((k', v) :: t) else (updateEntry t k v).map ((k', v') :: ·)

/-- Reinsertion step of `_rehash` (HandlesMap.c:289-301): each entry is
prepended to its new bucket. -/
def rehashInsert (table : List (List (Int × Int))) (cap : Nat) (e : Int × Int) :
    List (List (Int × Int)) :=
  let i := indexFor cap e.1
  table.set i (e :: table.getD i [])

/-- `_rehash` (HandlesMap.c:274-302): capacity doubles (saturating at 2^30 by
raising the threshold), and every entry is rehashed into the new table. -/
def HandlesMap_rehash (m : HM) : HM :=
  if m.capacity = 1073741824 then { m with threshold := 2147483647 }
  else
    let cap := m.capacity <<< 1
    let newTable :=
      m.table.foldl (fun t b => b.foldl (fun t' e => rehashInsert t' cap e) t)
        (List.replicate cap [])
    { table := newTable, capacity := cap, size := m.size, threshold := cap * 3 / 4 }

/-- `HandlesMap_put` (HandlesMap.c:162-194): update in place when present,
otherwise prepend a new entry and rehash when the size passes the threshold. -/
def HandlesMap_put (m : HM) (k v : Int) : HM :=
  let i := indexFor m.capacity k
  let b := m.table.getD i []
  match updateEntry b k v with
  | some b' => { m with table := m.table.set i b' }
  | none =>
    let m' := { m with table := m.table.set i ((k, v) :: b), size := m.size + 1 }
    if m'.size > m.threshold then HandlesMap_rehash m' else m'

/-- Chain walk of `HandlesMap_remove` past the head (`previousEntry` set):
splice the found entry out of the chain. -/
def removeRest : List (Int × Int) → Int → Option (List (Int × Int))
  | [], _ => none
  | (k', v') :: t, k => if k' = k then some t else (removeRest t k).map ((k', v') :: ·)

/-- `HandlesMap_remove` (HandlesMap.c:196-227), exactly as written: when the
entry to remove is the head of its bucket the code executes
`map->table[index] = NULL`, dropping the whole chain, not just the entry. -/
def HandlesMap_remove (m : HM) (k : Int) : HM :=
  let i := indexFor m.capacity k
  match m.table.getD i [] with
  | [] => m
  | (k0, v0) :: t =>
    if k0 = k then { m with table := m.table.set i [], size := m.size - 1 }
    else
      match removeRest t k with
      | none => m
      | some t' =>
        { m with table := m.table.set i ((k0, v0) :: t'), size := m.size - 1 }

/-- `HandlesMap_get` (HandlesMap.c:121-136): first match in the bucket chain,
0 when absent. -/
def HandlesMap_get (m : HM) (k : Int) : Int :=
  let rec find : List (Int × Int) → Int
    | [] => 0
    | (k', v') :: t => if k' = k then v' else find t
  find (m.table.getD (indexFor m.capacity k) [])

/-- `HandlesMap_size` (HandlesMap.c:229-234). -/
def HandlesMap_size (m : HM) : Nat := m.size

/-- Number of entries actually reachable in the table, as `HandlesMap_keys`
would collect them (it asserts that this count equals `size`). -/
def reachableCount (m : HM) : Nat := (m.table.map List.length).sum

end HMap

namespace CStore

/-- `MAX_BYTES_BLOCK` (CStoreImpl.c:26). -/
def maxBytesBlock : Nat := 65534

/-- Big-endian byte list of the low `n` bytes of a natural number, matching
the `value[i] = v >> shift` stores of `CStore_newValue`. -/
def bytesBE : Nat → Nat → List Nat
  | 0, _ => []
  | n + 1, w => bytesBE n (w / 256) ++ [w % 256]

/-- Big-endian reassembly, matching the shift-or chains of
`CStore_valueToLong`. -/
def assembleBE (l : List Nat) : Nat := l.foldl (fun a b => a * 256 + b) 0

/-- Two's-complement bit pattern of width `bits` of a signed value (the
conversion performed by storing a `jlong`/`jint`/… byte by byte). -/
def bitsOf (bits : Nat) (v : Int) : Nat := (v % ((2 : Int) ^ bits)).toNat

/-- Signed reinterpretation of a `bits`-wide pattern (the value of the
`c_store_long_t` built by the decoder's shift-or chain). -/
def toSigned (bits : Nat) (w : Nat) : Int :=
  if w < 2 ^ (bits - 1) then (w : Int) else (w : Int) - (2 : Int) ^ bits

/-- Block splitting of `_splitValue` (CStoreImpl.c:605-627): chunks of at most
65534 bytes, each preceded by its big-endian u16 length, terminated by a
zero-length chunk. -/
def splitValue (bs : List Nat) : List Nat :=
  if bs = [] then [0, 0]
  else
    let len := min bs.length maxBytesBlock
    (len / 256) :: (len % 256) :: (bs.take len ++ splitValue (bs.drop len))
termination_by bs.length
decreasing_by
  simp only [List.length_drop]
  have hb : 0 < bs.length := List.length_pos.mpr (by assumption)
  have : 0 < min bs.length maxBytesBlock := by
    simp only [maxBytesBlock]; omega
  omega

/-- Chunk lengths read back by `_joinedValueLength`/`_joinValue`
(CStoreImpl.c:563-594): `none` models a malformed (truncated or
non-terminating) split stream, which the C code would read out of bounds. -/
def chunkLens (stream : List Nat) : Option (List Nat) :=
  match stream with
  | b1 :: b2 :: rest =>
    let len := b1 * 256 + b2
    if h : len = 0 then some []
    else if rest.length < len then none
    else (chunkLens (rest.drop len)).map (len :: ·)
  | _ => none
termination_by stream.length
decreasing_by simp only [List.length_drop, List.length_cons]; omega

/-- Joined length as computed by `_joinedValueLength`: the sum of the chunk
lengths. -/
def joinedValueLength (stream : List Nat) : Option Nat := (chunkLens stream).map List.sum

/-- `_splitLength` (CStoreImpl.c:596-603), the byte reservation made by
`CStore_newValue` for a split payload of the given joined length. -/
def splitLength (joinedLength : Nat) : Nat :=
  let length := joinedLength + (joinedLength / maxBytesBlock + 1) * 2
  if length % maxBytesBlock ≠ 0 then length + 2 else length

/-- `CStore_newValue(VALUE_TYPE_LONG, v)`: type byte 'j' (106) plus the eight
big-endian payload bytes (CStoreImpl.c:142-144, 206-217). -/
def CStore_newValueLong (v : Int) : List Nat := 106 :: bytesBE 8 (bitsOf 64 v)

/-- `CStore_newValue(VALUE_TYPE_INTEGER, v)`: type byte 'i' (105) plus four
big-endian payload bytes (CStoreImpl.c:175-177, 242-248). -/
def CStore_newValueInteger (v : Int) : List Nat := 105 :: bytesBE 4 (bitsOf 32 v)

/-- `CStore_newValue(VALUE_TYPE_SHORT, v)`: type byte 's' (115) plus two
big-endian payload bytes (CStoreImpl.c:150-152, 224-227). -/
def CStore_newValueShort (v : Int) : List Nat := 115 :: bytesBE 2 (bitsOf 16 v)

/-- `CStore_newValue(VALUE_TYPE_BYTE, v)`: type byte 'b' (98) plus one payload
byte (CStoreImpl.c:183-186, 218-222). -/
def CStore_newValueByte (v : Int) : List Nat := 98 :: [bitsOf 8 v]

/-- `CStore_newValue(VALUE_TYPE_BOOLEAN, v)`: type byte 'z' (122) plus one
payload byte (the union stores the low byte of the boolean). -/
def CStore_newValueBoolean (v : Int) : List Nat := 122 :: [bitsOf 8 v]

/-- `CStore_newValue(VALUE_TYPE_STRING, bytes, len)`: type byte 't' (116)
plus the split stream (CStoreImpl.c:169-173, 237-241). -/
def CStore_newValueString (bs : List Nat) : List Nat := 116 :: splitValue bs

/-- `CStore_newValue(VALUE_TYPE_BYTE_ARRAY, bytes, len)`: type byte 'a' (97)
plus the split stream. -/
def CStore_newValueByteArray (bs : List Nat) : List Nat := 97 :: splitValue bs

/-- `CStore_valueToLong` (CStoreImpl.c:417-492) on the value byte sequence
(type byte first).  The LONG branch assembles all eight bytes into the 64-bit
pattern; the INTEGER branch assembles in 32-bit `int` arithmetic, so the
result is sign extended; the SHORT branch assembles `(uchar)b1 << 8 | b2`
without any sign extension; the BYTE branch reads the signed `jbyte`
directly; BOOLEAN yields 0 or 1.  The DOUBLE/FLOAT/STRING coercion branches
are not modelled (not needed by any claim); `none` covers them together with
the `default: return false` branch and malformed inputs. -/
def CStore_valueToLong (value : List Nat) : Option Int :=
  match value with
  | 106 :: b1 :: b2 :: b3 :: b4 :: b5 :: b6 :: b7 :: b8 :: _ =>
    some (toSigned 64 (assembleBE [b1, b2, b3, b4, b5, b6, b7, b8]))
  | 105 :: b1 :: b2 :: b3 :: b4 :: _ =>
    some (toSigned 32 (assembleBE [b1, b2, b3, b4]))
  | 115 :: b1 :: b2 :: _ => some ((b1 * 256 + b2 : Nat) : Int)
  | 98 :: b1 :: _ => some (toSigned 8 b1)
  | 122 :: b1 :: _ => some (if b1 ≠ 0 then 1 else 0)
  | _ => none

end CStore

namespace Ssl

/-- Status codes of rvpf_ssl.h. -/
inductive Status where
  | ok
  | askErr
  | illegalState
  | illegalArg
  | internalError
  | serverClosed
  | badAddress
  | unknownHost
  | untrustedHost
  | unknownError
deriving DecidableEq

/-- The observable part of `struct rvpf_ssl_context`: parsed host and port,
whether a connection is open, and the latched status. -/
structure Context where
  host : List Char
  port : Nat
  isOpen : Bool
  status : Status
deriving DecidableEq

/-- `rvpf_ssl_failed`. -/
def rvpf_ssl_failed (c : Context) : Bool := c.status ≠ .ok

/-- `rvpf_ssl_clearError` (rvpf_ssl.c:99-107). -/
def rvpf_ssl_clearError (c : Context) : Context := { c with status := .ok }

/-- Split at the last `:` (`strrchr(address, ':')`): the part before the last
colon and the part after it, or `none` when there is no colon. -/
def splitLastColon : List Char → Option (List Char × List Char)
  | [] => none
  | c :: rest =>
    match splitLastColon rest with
    | some (h, p) => some (c :: h, p)
    | none => if c = ':' then some ([], rest) else none

/-- Decimal digit parse of the port, modelling the `strtoul(pointer, &pointer,
10)` call followed by the `*pointer != '\0' || port == 0` check for inputs
made of plain digits (leading white space and sign handling of `strtoul` are
not modelled; no caller in the claims uses them). -/
def parsePort (cs : List Char) : Option Nat :=
  if cs ≠ [] ∧ cs.all Char.isDigit then
    let n := cs.foldl (fun a c => a * 10 + (c.toNat - 48)) 0
    if n = 0 then none else some n
  else none

/-- Address parsing of `rvpf_ssl_open` (rvpf_ssl.c:289-309): the host is the
part before the last colon (`127.0.0.1` when empty), the port the decimal
after it; any failure is `BAD_ADDRESS`. -/
def parseAddress (address : Option (List Char)) : Option (List Char × Nat) :=
  match address with
  | none => none
  | some cs =>
    match splitLastColon cs with
    | none => none
    | some (h, p) =>
      match parsePort p with
      | none => none
      | some port =>
        some ((if h = [] then '1' :: '2' :: '7' :: '.' :: '0' :: '.' :: '0' :: '.' :: '1' :: [] else h), port)

/-- `rvpf_ssl_open` (rvpf_ssl.c:278-426).  The connection steps (socket/BIO
creation, TCP connect, TLS handshake) are external; their combined outcome is
the `connectResult` parameter (`.ok` on success, the status the C code would
latch otherwise).  Note the structure of the source: an open context gets
`ILLEGAL_STATE`; otherwise the status is first reset to `RVPF_SSL_OK` and the
open proceeds, whatever status was latched before. -/
def rvpf_ssl_open (c : Context) (address : Option (List Char)) (connectResult : Status) :
    Context :=
  if c.isOpen then { c with status := .illegalState }
  else
    match parseAddress address with
    | none => { c with status := .badAddress }
    | some (h, p) =>
      if connectResult = .ok then { host := h, port := p, isOpen := true, status := .ok }
      else { host := h, port := p, isOpen := false, status := connectResult }

/-- `rvpf_ssl_receive` (rvpf_ssl.c:444-475): short-circuit on a failed
context, argument check, then the external read result `recvCount` maps to a
status (0 bytes means the server closed, -1 asks the library, other negatives
are internal errors).  Result: the returned count and the new context. -/
def rvpf_ssl_receive (c : Context) (bufferNull : Bool) (size : Nat) (recvCount : Int) :
    Int × Context :=
  if rvpf_ssl_failed c then (0, c)
  else if bufferNull ∨ size < 1 then (0, { c with status := .illegalArg })
  else if recvCount < 0 then
    (recvCount,
      { c with status := if recvCount = -1 then .askErr else .internalError })
  else if recvCount = 0 then (0, { c with status := .serverClosed })
  else (recvCount, c)

/-- `rvpf_ssl_send` (rvpf_ssl.c:477-506): like receive, but a zero count is an
internal error rather than a close. -/
def rvpf_ssl_send (c : Context) (bufferNull : Bool) (size : Nat) (sendCount : Int) :
    Int × Context :=
  if rvpf_ssl_failed c then (0, c)
  else if bufferNull ∨ size < 1 then (0, { c with status := .illegalArg })
  else if sendCount ≤ 0 then
    (sendCount,
      { c with status := if sendCount = -1 then .askErr else .internalError })
  else (sendCount, c)

end Ssl

namespace Xpvpc

/-- Status codes of rvpf_xpvpc.h. -/
inductive XStatus where
  | ok
  | illegalState
  | illegalArg
  | internalError
  | unexpectedResponse
  | mismatchedId
  | allocationFailed
  | unknownError
deriving DecidableEq

/-- Observable state of `struct rvpf_xpvpc_context` together with its SSL
transport: the 63-bit document id counter, the pending element count of the
open batch, the context status, whether the transport is open and whether it
has failed. -/
structure Ctx where
  id : Nat
  pending : Nat
  status : XStatus
  sslOpen : Bool
  sslOk : Bool
deriving DecidableEq

/-- A session: the context, the acknowledgement lines the server will produce
(consumed in order by `_receiveLine`), the ids of the documents emitted so far
(a document is emitted when `++context->id` assigns its id and its text is
built: one per login, one per lazily opened messages batch), and counters of
`_sendText` transmissions and acknowledgement lines read. -/
structure Sess where
  ctx : Ctx
  responses : List (List Char)
  docs : List Nat
  sendCount : Nat
  readCount : Nat
deriving DecidableEq

/-- `rvpf_xpvpc_failed` (rvpf_xpvpc.c:188-194). -/
def xpvpc_failed (c : Ctx) : Bool := c.status ≠ .ok || !c.sslOk

/-- Character-by-character `_match` (rvpf_xpvpc.c:577-588) of a fixed text
against the head of the buffer: the rest on success, `none` for the
`UNEXPECTED_RESPONSE` outcome. -/
def chopText : List Char → List Char → Option (List Char)
  | [], l => some l
  | _ :: _, [] => none
  | t :: ts, c :: cs => if c = t then chopText ts cs else none

/-- Digit accumulation of `_verifyResponse` (rvpf_xpvpc.c:670-676). -/
def digitsToNat (l : List Char) : Nat := l.foldl (fun a c => a * 10 + (c.toNat - 48)) 0

/-- The `RESPONSE_START` text `<done ref='`. -/
def responseStart : List Char :=
  '<' :: 'd' :: 'o' :: 'n' :: 'e' :: ' ' :: 'r' :: 'e' :: 'f' :: '=' :: '\'' :: []

/-- The `RESPONSE_END` text `'/>`. -/
def responseEnd : List Char := '\'' :: '/' :: '>' :: []

/-- Status computed by `_verifyResponse` (rvpf_xpvpc.c:656-688) from one
acknowledgement line: `UNEXPECTED_RESPONSE` when the framing does not match,
`MISMATCHED_ID` when the parsed ref differs from the expected id, `OK`
otherwise (content after `'/>` is ignored by the source). -/
def verifyStatus (line : List Char) (expected : Nat) : XStatus :=
  match chopText responseStart line with
  | none => .unexpectedResponse
  | some r1 =>
    let ds := r1.takeWhile Char.isDigit
    let r2 := r1.dropWhile Char.isDigit
    match chopText responseEnd r2 with
    | none => .unexpectedResponse
    | some _ => if digitsToNat ds ≠ expected then .mismatchedId else .ok

/-- The ref number of a well-framed `<done ref='N'/>` line, `none` when the
framing does not match. -/
def parseDone (line : List Char) : Option Nat :=
  match chopText responseStart line with
  | none => none
  | some r1 =>
    match chopText responseEnd (r1.dropWhile Char.isDigit) with
    | none => none
    | some _ => some (digitsToNat (r1.takeWhile Char.isDigit))

/-- `_sendText` (rvpf_xpvpc.c:634-654): transmits the buffered document unless
the session has failed.  Transport write failures are not modelled (failures
enter through the acknowledgement stream). -/
def sendText (s : Sess) : Sess :=
  if xpvpc_failed s.ctx then s else { s with sendCount := s.sendCount + 1 }

/-- `_verifyResponse` together with `_receiveLine` (rvpf_xpvpc.c:590-626,
656-688): nothing happens when the context status is already non-OK; when the
transport has failed (or produces no line) the empty buffer makes the
`_match` of `RESPONSE_START` fail, latching `UNEXPECTED_RESPONSE`; otherwise
exactly one line is consumed and classified by `verifyStatus`. -/
def verifyResponse (s : Sess) (expected : Nat) : Sess :=
  if s.ctx.status ≠ .ok then s
  else if !s.ctx.sslOk then
    { s with ctx := { s.ctx with status := .unexpectedResponse } }
  else
    match s.responses with
    | [] => { s with ctx := { s.ctx with sslOk := false, status := .unexpectedResponse } }
    | l :: rest =>
      { s with
        responses := rest,
        readCount := s.readCount + 1,
        ctx := { s.ctx with status := verifyStatus l expected } }

/-- `rvpf_xpvpc_flush` (rvpf_xpvpc.c:196-218): nothing on a failed or closed
session; with pending elements, the `</messages>` close is sent and the
acknowledgement of the batch id verified, and the pending count is reset. -/
def flushOp (s : Sess) : Sess :=
  if xpvpc_failed s.ctx then s
  else if !s.ctx.sslOpen then { s with ctx := { s.ctx with status := .illegalState } }
  else if s.ctx.pending ≠ 0 then
    let s2 := verifyResponse (sendText s) s.ctx.id
    { s2 with ctx := { s2.ctx with pending := 0 } }
  else s

/-- `rvpf_xpvpc_login` (rvpf_xpvpc.c:227-267).  After the entry checks the
code flushes, then builds the `<login …/>` document.  The argument of
`_addLong(context, ++context->id)` is evaluated unconditionally, so the id
counter is incremented even when the preliminary flush has just failed; the
document itself is only built and sent when the status is still OK. -/
def loginOp (s : Sess) : Sess :=
  if xpvpc_failed s.ctx then s
  else if !s.ctx.sslOpen then { s with ctx := { s.ctx with status := .illegalState } }
  else
    let s1 := flushOp s
    let newId := s1.ctx.id + 1
    let s2 := { s1 with ctx := { s1.ctx with id := newId } }
    if s2.ctx.status = .ok ∧ s2.ctx.sslOk then
      verifyResponse (sendText { s2 with docs := s2.docs ++ [newId] }) newId
    else s2

/-- `rvpf_xpvpc_sendValue` (rvpf_xpvpc.c:299-391) with the process-global
`_autoFlush` passed in: entry checks, lazy `<messages>` batch open with a
fresh pre-incremented id, the element text, `++context->pending`, and the
automatic flush when the threshold is reached. -/
def sendValueOp (autoFlush : Int) (s : Sess) (argsOk : Bool) : Sess :=
  if xpvpc_failed s.ctx then s
  else if !s.ctx.sslOpen then { s with ctx := { s.ctx with status := .illegalState } }
  else if !argsOk then { s with ctx := { s.ctx with status := .illegalArg } }
  else
    let s1 :=
      if s.ctx.pending = 0 then
        { s with ctx := { s.ctx with id := s.ctx.id + 1 }, docs := s.docs ++ [s.ctx.id + 1] }
      else s
    let s2 := { s1 with ctx := { s1.ctx with pending := s1.ctx.pending + 1 } }
    if autoFlush > 0 ∧ (s2.ctx.pending : Int) ≥ autoFlush then flushOp s2 else s2

/-- A session that has not failed: its context status is OK and its transport
has not failed. -/
def okSess (s : Sess) : Prop := s.ctx.status = .ok ∧ s.ctx.sslOk = true

/-- The id/document accounting stated by claim C8: the id counter equals the
number of emitted documents, the document ids are 1, 2, …, n in emission
order, and one acknowledgement line has been read per transmission. -/
def idDocsInv (s : Sess) : Prop :=
  s.ctx.id = s.docs.length ∧ s.docs = List.range' 1 s.docs.length
    ∧ s.readCount = s.sendCount

/-- Session operations driven by a caller. -/
inductive Op where
  | login
  | sendValue (argsOk : Bool)
  | flush
deriving DecidableEq

/-- One operation against the session, under the current `_autoFlush`. -/
def step (autoFlush : Int) (s : Sess) : Op → Sess
  | .login => loginOp s
  | .sendValue argsOk => sendValueOp autoFlush s argsOk
  | .flush => flushOp s

/-- A finite sequence of operations. -/
def run (autoFlush : Int) (s : Sess) : List Op → Sess
  | [] => s
  | op :: ops => run autoFlush (step autoFlush s op) ops

/-- A freshly opened session: the id counter starts at zero (the context is
calloc-zeroed by `RVPF_MEM_ALLOCATE`) and no batch is pending. -/
def initialSess (responses : List (List Char)) : Sess :=
  { ctx := { id := 0, pending := 0, status := .ok, sslOpen := true, sslOk := true },
    responses := responses, docs := [], sendCount := 0, readCount := 0 }

/-- Process state for the frame-effect claim: the file-static `_autoFlush`
(rvpf_xpvpc.c:89) shared by every context, and two independent contexts. -/
structure Proc where
  autoFlushG : Int
  sessA : Sess
  sessB : Sess
deriving DecidableEq

/-- `rvpf_xpvpc_setAutoFlush` (rvpf_xpvpc.c:393-398) applied to context A:
flush A when it is open, then store the threshold in the process-global. -/
def rvpf_xpvpc_setAutoFlush_onA (p : Proc) (autoFlush : Int) : Proc :=
  let a' := if p.sessA.ctx.sslOpen then flushOp p.sessA else p.sessA
  { p with sessA := a', autoFlushG := autoFlush }

/-- `rvpf_xpvpc_sendValue` on context B, reading the process-global
threshold. -/
def rvpf_xpvpc_sendValue_onB (p : Proc) (argsOk : Bool) : Proc :=
  { p with sessB := sendValueOp p.autoFlushG p.sessB argsOk }

end Xpvpc

/-! Theorems.  Each claim of the external specification is settled below; the
helper lemmas come first. -/

open Pipe HMap CStore Ssl Xpvpc

/-- C1, counterexample: a request whose seed result is still present but
carries no value and has no extra results gets summary 0 on the response
line, not -1 as claimed. -/
theorem C1_counterexample :
    endEngineRequest ['4', '2'] (some ⟨['P'], some ['s'], none, none⟩) []
        = [['4', '2', ' ', '0']]
      ∧ ¬ (['4', '2', ' ', '0'] = ['4', '2', ' ', '-', '1']) := by
  constructor
  · rfl
  · decide

/-- C1 (amended): the summary emitted by `endEngineRequest` is -1 when the
result was cleared and no extra results exist, the extra count when the
result was cleared and extras exist, 0 when the seed result is present
without a value and without extras, and otherwise 1 plus the extra count. -/
theorem C1_amended (requestID : List Char) (result : Option PointValue)
    (extras : List PointValue) :
    engineSummary result extras = summarySpec result extras
      ∧ (endEngineRequest requestID result extras).head?
          = some (requestID ++ ' ' :: intToChars (summarySpec result extras)) := by
  have h : engineSummary result extras = summarySpec result extras := by
    cases result with
    | none =>
      simp only [engineSummary, summarySpec]
      cases extras <;> simp
    | some r =>
      simp only [engineSummary, summarySpec]
      cases hv : r.value <;> cases extras <;> simp [hv]
  refine ⟨h, ?_⟩
  simp [endEngineRequest, h]

/-- C2: evaluation of the failing input.  After `create(2); put(1,10);
put(8,20); remove(8)` the keys 1 and 8 share bucket 3 of the 4-slot table;
removing key 8 (the bucket head) nulls the whole bucket, so the never-removed
key 1 becomes unreachable while `size` still reports 1, contradicting the
claimed invariant and the `index == mapSize` assertion of `HandlesMap_keys`. -/
theorem C2_bug_eval :
    HandlesMap_size
        (HandlesMap_remove
          (HandlesMap_put (HandlesMap_put (HandlesMap_create 2) 1 10) 8 20) 8) = 1
      ∧ HandlesMap_get
          (HandlesMap_remove
            (HandlesMap_put (HandlesMap_put (HandlesMap_create 2) 1 10) 8 20) 8) 1 = 0
      ∧ reachableCount
          (HandlesMap_remove
            (HandlesMap_put (HandlesMap_put (HandlesMap_create 2) 1 10) 8 20) 8) = 0 := by
  refine ⟨?_, ?_, ?_⟩ <;> decide

/-- C4, counterexample: a `[` inside the logical state is emitted as the
two-character sequence `][`, not `]]` as claimed. -/
theorem C4_counterexample :
    stateToBuffer ['['] = [']', '[']
      ∧ ¬ ([']', '['] = ([']', ']'] : List Char)) := by
  constructor
  · rfl
  · decide

/-- C4 (amended): in an emitted PIPE line each `[` of the logical state is
written as the two-character sequence `][` and each `]` as `[]`, and each `"`
inside the value is written as `""`. -/
theorem C4_amended :
    (∀ s : List Char, stateToBuffer s = s.flatMap escStateSpec)
      ∧ (∀ v : List Char, valueToBuffer v = v.flatMap escValueSpec) := by
  constructor
  · intro s
    induction s with
    | nil => rfl
    | cons c cs ih =>
      simp only [stateToBuffer, List.flatMap_cons, escStateSpec, ih]
      by_cases h1 : c = '['
      · simp [h1]
      · by_cases h2 : c = ']' <;> simp [h1, h2]
  · intro v
    induction v with
    | nil => rfl
    | cons c cs ih =>
      simp only [valueToBuffer, List.flatMap_cons, escValueSpec, ih]
      by_cases h1 : c = '"' <;> simp [h1]

/-- C6, counterexample: for the empty payload (length 0, a multiple of
65534 but not a non-zero one) the reservation is 4 bytes while `_splitValue`
writes only the 2-byte terminator, so the reservation is not exact there. -/
theorem C6_counterexample :
    splitLength 0 = 4 ∧ (splitValue []).length = 2 ∧ ¬ ((4 : Nat) = 2) := by
  refine ⟨by rfl, by simp [splitValue], by decide⟩

/-- One raw line followed by a newline is consumed by `_nextLine` into the
processed buffer; blank results are skipped. -/
theorem nextLineAux_append (raw : List Char) : ∀ (buf rest : List Char), '\n' ∉ raw →
    nextLineAux buf (raw ++ '\n' :: rest)
      = if trimTrailingWS (scanBuf buf raw) = [] then nextLineAux [] rest
        else (some (trimTrailingWS (scanBuf buf raw)), rest) := by
  induction raw with
  | nil =>
    intro buf rest _
    simp [nextLineAux, scanBuf]
  | cons c cs ih =>
    intro buf rest h
    simp only [List.mem_cons, not_or] at h
    have hc : ¬ c = '\n' := fun hcc => h.1 hcc.symm
    by_cases h1 : c = '\r'
    · simp only [List.cons_append, nextLineAux, scanBuf, if_neg hc, if_pos h1]
      exact ih buf rest h.2
    · by_cases h2 : buf = [] ∧ isWS c
      · simp only [List.cons_append, nextLineAux, scanBuf, if_neg hc, if_neg h1, if_pos h2]
        exact ih [] rest h.2
      · simp only [List.cons_append, nextLineAux, scanBuf, if_neg hc, if_neg h1, if_neg h2]
        exact ih (buf ++ [c]) rest h.2

/-- Once the buffer is non-empty, only carriage returns are dropped. -/
theorem scanBuf_of_ne (raw : List Char) : ∀ (buf : List Char), buf ≠ [] →
    scanBuf buf raw = buf ++ raw.filter (fun c => !(c == '\r')) := by
  induction raw with
  | nil => intro buf _; simp [scanBuf]
  | cons c cs ih =>
    intro buf hb
    by_cases h1 : c = '\r'
    · simp [scanBuf, h1, ih buf hb, List.filter]
    · have : ¬ (buf = [] ∧ isWS c) := fun hh => hb hh.1
      simp only [scanBuf, if_neg h1, if_neg this]
      rw [ih (buf ++ [c]) (by simp)]
      have hb1 : (!(c == '\x0d')) = true := by simp [h1]
      simp [List.filter, hb1]

/-- The buffered characters of a raw line: carriage returns removed, then
leading whitespace dropped. -/
theorem scanBuf_nil (raw : List Char) :
    scanBuf [] raw = (raw.filter (fun c => !(c == '\r'))).dropWhile isWS := by
  induction raw with
  | nil => rfl
  | cons c cs ih =>
    by_cases h1 : c = '\r'
    · simp [scanBuf, h1, ih, List.filter]
    · by_cases h2 : isWS c
      · have hcond : (([] : List Char) = [] ∧ isWS c) := ⟨rfl, h2⟩
        simp only [scanBuf, if_neg h1, if_pos hcond]
        rw [ih]
        have hb1 : (!(c == '\x0d')) = true := by simp [h1]
        simp [List.filter, hb1, List.dropWhile, h2]
      · have hcond : ¬ (([] : List Char) = [] ∧ isWS c) := fun hh => h2 hh.2
        simp only [scanBuf, if_neg h1, if_neg hcond]
        rw [scanBuf_of_ne cs ([] ++ [c]) (by simp)]
        have hb1 : (!(c == '\x0d')) = true := by simp [h1]
        simp [List.filter, hb1, List.dropWhile, h2]

/-- C9 (amended): while scanning for the first line of a PIPE request, every
input line whose processed form (carriage returns removed, leading and
trailing whitespace stripped - hence verbatim when the line contains none of
those) is non-blank, contains no space and is not '0' is written back in that
processed form followed by a newline and a flush, and scanning continues with
the next line; lines that are blank after this processing are silently
skipped. -/
theorem C9_amended (raw rest : List Char) (hnl : '\n' ∉ raw) :
    (processLine raw ≠ [] → ' ' ∉ processLine raw → processLine raw ≠ ['0'] →
        firstLine (raw ++ '\n' :: rest)
          = (processLine raw ++ '\n' :: (firstLine rest).1, (firstLine rest).2))
      ∧ (processLine raw = [] → firstLine (raw ++ '\n' :: rest) = firstLine rest)
      ∧ scanBuf [] raw = (raw.filter (fun c => !(c == '\r'))).dropWhile isWS := by
  have hnext := nextLineAux_append raw [] rest hnl
  refine ⟨?_, ?_, scanBuf_nil raw⟩
  · intro hne hsp h0
    rw [firstLine]
    rw [show nextLineAux [] (raw ++ '\n' :: rest) = (some (processLine raw), rest) from by
      rw [hnext, if_neg (by simpa [processLine] using hne)]; simp [processLine]]
    simp [hsp, h0]
  · intro hempty
    rw [firstLine]
    rw [show nextLineAux [] (raw ++ '\n' :: rest) = nextLineAux [] rest from by
      rw [hnext, if_pos (by simpa [processLine] using hempty)]]
    rw [firstLine]

/-- C9, counterexample: the input line `a\rb` is non-blank, contains no space
and is not `0`, yet it is echoed as `ab` - the carriage return is dropped -
so it is not written back verbatim. -/
theorem C9_counterexample :
    (firstLine ('a' :: '\x0d' :: 'b' :: '\n' :: 'x' :: ' ' :: 'y' :: '\n' :: [])).1
        = ['a', 'b', '\n']
      ∧ (firstLine ('a' :: '\x0d' :: 'b' :: '\n' :: 'x' :: ' ' :: 'y' :: '\n' :: [])).2.1
          = some ['x', ' ', 'y']
      ∧ ¬ (['a', 'b', '\n'] = ['a', '\x0d', 'b', '\n']) := by
  refine ⟨?_, ?_, by decide⟩ <;>
    simp [firstLine, nextLineAux, trimTrailingWS, isWS]

/-- C9, witness: the amended theorem applied to the line `x` followed by the
termination line `0`. -/
theorem C9_witness :
    firstLine (('x' :: []) ++ '\n' :: ('0' :: '\n' :: []))
      = (processLine ('x' :: []) ++ '\n' :: (firstLine ('0' :: '\n' :: [])).1,
          (firstLine ('0' :: '\n' :: [])).2) :=
  (C9_amended ['x'] ('0' :: '\n' :: []) (by decide)).1 (by decide) (by decide) (by decide)

/-- A field whose head is not a space is left alone by the space skip. -/
theorem dropSpaces_cons_ne (c : Char) (l : List Char) (h : c ≠ ' ') :
    dropSpaces (c :: l) = c :: l := by
  simp [dropSpaces, h]

/-- The field before the delimiting space. -/
theorem takeField_append (xs ys : List Char) (h : ' ' ∉ xs) :
    takeField (xs ++ ' ' :: ys) = xs := by
  induction xs with
  | nil => simp [takeField]
  | cons c cs ih =>
    simp only [List.mem_cons, not_or] at h
    have hc : ¬ c = ' ' := fun hcc => h.1 hcc.symm
    simp only [List.cons_append, takeField, if_neg hc, List.append_eq]
    rw [ih h.2]

/-- The rest of the line from the delimiting space on. -/
theorem restField_append (xs ys : List Char) (h : ' ' ∉ xs) :
    restField (xs ++ ' ' :: ys) = ' ' :: ys := by
  induction xs with
  | nil => simp [restField]
  | cons c cs ih =>
    simp only [List.mem_cons, not_or] at h
    have hc : ¬ c = ' ' := fun hcc => h.1 hcc.symm
    simp only [List.cons_append, restField, if_neg hc, List.append_eq]
    exact ih h.2

/-- A space-free tail is one whole field. -/
theorem takeField_nospace (xs : List Char) (h : ' ' ∉ xs) : takeField xs = xs := by
  induction xs with
  | nil => rfl
  | cons c cs ih =>
    simp only [List.mem_cons, not_or] at h
    have hc : ¬ c = ' ' := fun hcc => h.1 hcc.symm
    simp only [takeField, if_neg hc]
    rw [ih h.2]

/-- Nothing follows a space-free final field. -/
theorem restField_nospace (xs : List Char) (h : ' ' ∉ xs) : restField xs = [] := by
  induction xs with
  | nil => rfl
  | cons c cs ih =>
    simp only [List.mem_cons, not_or] at h
    have hc : ¬ c = ' ' := fun hcc => h.1 hcc.symm
    simp only [restField, if_neg hc]
    exact ih h.2

/-- Extraction of a space-free field followed by more of the line. -/
theorem nextFieldPair_mid (xs R : List Char) (hx : xs ≠ []) (h : ' ' ∉ xs) :
    nextFieldPair (xs ++ ' ' :: R) = some (xs, ' ' :: R) := by
  rcases xs with _ | ⟨c, cs⟩
  · exact absurd rfl hx
  · have hc : c ≠ ' ' := fun hcc => h (hcc ▸ List.mem_cons_self c cs)
    simp only [nextFieldPair, List.cons_append]
    rw [if_neg (by simp), dropSpaces_cons_ne c _ hc]
    rw [show (c :: (cs ++ ' ' :: R)) = (c :: cs) ++ ' ' :: R from rfl]
    rw [takeField_append _ _ h, restField_append _ _ h]

/-- Extraction of a field that sits after the previous delimiter. -/
theorem nextFieldPair_space_mid (xs R : List Char) (hx : xs ≠ []) (h : ' ' ∉ xs) :
    nextFieldPair (' ' :: (xs ++ ' ' :: R)) = some (xs, ' ' :: R) := by
  rcases xs with _ | ⟨c, cs⟩
  · exact absurd rfl hx
  · have hc : c ≠ ' ' := fun hcc => h (hcc ▸ List.mem_cons_self c cs)
    simp only [nextFieldPair, List.cons_append]
    rw [if_neg (by simp)]
    rw [show dropSpaces (' ' :: (c :: (cs ++ ' ' :: R))) = dropSpaces (c :: (cs ++ ' ' :: R)) from by
      simp [dropSpaces]]
    rw [dropSpaces_cons_ne c _ hc]
    rw [show (c :: (cs ++ ' ' :: R)) = (c :: cs) ++ ' ' :: R from rfl]
    rw [takeField_append _ _ h, restField_append _ _ h]

/-- Extraction of the final field after the previous delimiter. -/
theorem nextFieldPair_space_last (xs : List Char) (hx : xs ≠ []) (h : ' ' ∉ xs) :
    nextFieldPair (' ' :: xs) = some (xs, []) := by
  rcases xs with _ | ⟨c, cs⟩
  · exact absurd rfl hx
  · have hc : c ≠ ' ' := fun hcc => h (hcc ▸ List.mem_cons_self c cs)
    simp only [nextFieldPair]
    rw [if_neg (by simp)]
    rw [show dropSpaces (' ' :: c :: cs) = dropSpaces (c :: cs) from by simp [dropSpaces],
      dropSpaces_cons_ne c _ hc, takeField_nospace _ h, restField_nospace _ h]

/-- The state automaton undoes the bracket escaping of `stateToBuffer`. -/
theorem decodeStateLoop_escape (s : List Char) : ∀ (acc rest : List Char),
    decodeStateLoop (stateToBuffer s ++ rest) acc false false
      = decodeStateLoop rest (acc ++ s) false false := by
  induction s with
  | nil => intro acc rest; simp [stateToBuffer]
  | cons c cs ih =>
    intro acc rest
    by_cases h1 : c = '['
    · subst h1
      simp [stateToBuffer, decodeStateLoop, ih]
    · by_cases h2 : c = ']'
      · subst h2
        simp [stateToBuffer, decodeStateLoop, ih]
      · simp [stateToBuffer, decodeStateLoop, ih, h1, h2]

/-- The closing bracket at end of line terminates the state. -/
theorem decodeStateLoop_close_nil (acc : List Char) :
    decodeStateLoop [']'] acc false false = some (acc, []) := by
  simp [decodeStateLoop]

/-- The closing bracket before more content terminates the state, skipping
the following character and spaces. -/
theorem decodeStateLoop_close_space (acc r : List Char) :
    decodeStateLoop (']' :: ' ' :: r) acc false false = some (acc, dropSpaces r) := by
  simp [decodeStateLoop]

/-- The value automaton undoes the quote doubling of `valueToBuffer`. -/
theorem decodeValueLoop_escape (v : List Char) : ∀ (acc rest : List Char),
    decodeValueLoop (valueToBuffer v ++ rest) acc false
      = decodeValueLoop rest (acc ++ v) false := by
  induction v with
  | nil => intro acc rest; simp [valueToBuffer]
  | cons c cs ih =>
    intro acc rest
    by_cases h1 : c = '"'
    · subst h1
      simp [valueToBuffer, decodeValueLoop, ih]
    · simp [valueToBuffer, decodeValueLoop, ih, h1]

/-- The closing quote at end of line terminates the value. -/
theorem decodeValueLoop_close (acc : List Char) :
    decodeValueLoop ['"'] acc false = some acc := by
  simp [decodeValueLoop]

/-- C3 (amended): for every PointValue whose point name and stamp are
non-empty and contain no space, emitting it as a PIPE line with
`_pointValueToBuffer` and parsing that line back with `_fillPointValue`
yields the same PointValue (point name, stamp, state and value), for
arbitrary state and value strings - in particular ones with balanced
brackets and quotes - via the state bracket escaping and value quote
doubling. -/
theorem C3_amended (name stamp : List Char) (st : Option (List Char)) (v : Option (List Char))
    (hn : name ≠ []) (hns : ' ' ∉ name) (hs : stamp ≠ []) (hss : ' ' ∉ stamp) :
    fillPointValue (pointValueToBuffer ⟨name, some stamp, st.map PState.text, v⟩) true
      = some ⟨name, some stamp, st.map PState.text, v⟩ := by
  rcases st with _ | s <;> rcases v with _ | w
  · simp only [Option.map_none', pointValueToBuffer, Option.getD_some, List.append_nil]
    rw [fillPointValue, nextFieldPair_mid name stamp hn hns]
    simp only [nextFieldPair_space_last stamp hs hss, lastField]
    simp
  · simp only [Option.map_none', pointValueToBuffer, Option.getD_some,
      List.append_assoc, List.cons_append, List.nil_append]
    rw [fillPointValue,
      nextFieldPair_mid name (stamp ++ ' ' :: '"' :: (valueToBuffer w ++ ['"'])) hn hns]
    simp only [nextFieldPair_space_mid stamp ('"' :: (valueToBuffer w ++ ['"'])) hs hss]
    simp only [lastField, dropSpaces]
    simp
    simp only [fillValueField]
    rw [decodeValueLoop_escape w [] ['"']]
    simp [decodeValueLoop_close]
  · simp only [Option.map_some', pointValueToBuffer, Option.getD_some, stateChars,
      List.append_nil, List.append_assoc, List.cons_append, List.nil_append]
    rw [fillPointValue,
      nextFieldPair_mid name (stamp ++ ' ' :: '[' :: (stateToBuffer s ++ [']'])) hn hns]
    simp only [nextFieldPair_space_mid stamp ('[' :: (stateToBuffer s ++ [']'])) hs hss]
    simp only [lastField, dropSpaces]
    simp
    rw [show (stateToBuffer s ++ ([']'] : List Char)) = stateToBuffer s ++ (']' :: []) from rfl,
      decodeStateLoop_escape s [] (']' :: [])]
    simp only [List.nil_append, decodeStateLoop_close_nil]
    simp [fillValueField]
  · simp only [Option.map_some', pointValueToBuffer, Option.getD_some, stateChars,
      List.append_assoc, List.cons_append, List.nil_append]
    rw [fillPointValue,
      nextFieldPair_mid name
        (stamp ++ ' ' :: '[' :: (stateToBuffer s ++ ']' :: ' ' :: '"' :: (valueToBuffer w ++ ['"'])))
        hn hns]
    simp only [nextFieldPair_space_mid stamp
      ('[' :: (stateToBuffer s ++ ']' :: ' ' :: '"' :: (valueToBuffer w ++ ['"']))) hs hss]
    simp only [lastField, dropSpaces]
    simp
    rw [decodeStateLoop_escape s [] (']' :: ' ' :: '"' :: (valueToBuffer w ++ ['"']))]
    simp only [List.nil_append, decodeStateLoop_close_space, dropSpaces]
    simp
    simp only [fillValueField]
    rw [decodeValueLoop_escape w [] ['"']]
    simp [decodeValueLoop_close]

/-- C3, counterexample: a PointValue whose point name contains a space (its
string fields contain no brackets or quotes at all, hence only balanced ones)
does not survive the emit/parse round trip: the name is cut at the space and
the stamp taken from the name's second word. -/
theorem C3_counterexample :
    fillPointValue (pointValueToBuffer ⟨['a', ' ', 'b'], some ['s'], none, none⟩) true
        = some ⟨['a'], some ['b'], none, none⟩
      ∧ ¬ ((⟨['a'], some ['b'], none, none⟩ : PointValue)
            = ⟨['a', ' ', 'b'], some ['s'], none, none⟩) := by
  constructor
  · rfl
  · decide

/-- C3, witness: the amended round trip applied at a concrete PointValue. -/
theorem C3_witness :
    fillPointValue
        (pointValueToBuffer ⟨['P'], some ['s'], some (PState.text ['x']), some ['y']⟩) true
      = some ⟨['P'], some ['s'], some (PState.text ['x']), some ['y']⟩ :=
  C3_amended ['P'] ['s'] (some ['x']) (some ['y'])
    (by decide) (by decide) (by decide) (by decide)

/-- Length of the stream written by `_splitValue`, in closed form. -/
theorem splitValue_length (bs : List Nat) :
    (splitValue bs).length = bs.length + 2 * (bs.length / maxBytesBlock) + 2
      + (if bs.length % maxBytesBlock = 0 then 0 else 2) := by
  induction bs using splitValue.induct with
  | case1 => simp [splitValue]
  | case2 bs hne len ih =>
    have hlen : len = min bs.length maxBytesBlock := rfl
    have hpos : 0 < bs.length := List.length_pos.mpr hne
    rw [splitValue]
    simp only [if_neg hne]
    rw [List.length_cons, List.length_cons, List.length_append, List.length_take, ih]
    rw [hlen] at *
    simp only [List.length_drop, maxBytesBlock] at *
    rcases Nat.le_total bs.length 65534 with hle | hge
    · rw [Nat.min_eq_left hle] at *
      split_ifs <;> omega
    · rw [Nat.min_eq_right hge] at *
      split_ifs <;> omega

/-- The chunk lengths of a split stream, as the decoder reads them back: they
sum to the joined length and each is at most `MAX_BYTES_BLOCK`. -/
theorem splitValue_chunks (bs : List Nat) :
    ∃ ls, chunkLens (splitValue bs) = some ls ∧ ls.sum = bs.length
      ∧ ∀ l ∈ ls, l ≤ maxBytesBlock := by
  induction bs using splitValue.induct with
  | case1 =>
    refine ⟨[], ?_, by simp, by simp⟩
    rw [splitValue]
    simp [chunkLens]
  | case2 bs hne len ih =>
    have hlen : len = min bs.length maxBytesBlock := rfl
    have hpos : 0 < bs.length := List.length_pos.mpr hne
    have hlpos : 0 < len := by rw [hlen]; simp only [maxBytesBlock]; omega
    have hlle : len ≤ bs.length := by rw [hlen]; omega
    have hlmax : len ≤ maxBytesBlock := by rw [hlen]; omega
    obtain ⟨ls, hc, hsum, hmax⟩ := ih
    have htl : (bs.take len).length = len := by simp [List.length_take, hlle]
    refine ⟨len :: ls, ?_, ?_, ?_⟩
    · rw [splitValue]
      simp only [if_neg hne]
      rw [chunkLens]
      have h256 : len / 256 * 256 + len % 256 = len := by omega
      have hge : ¬ (bs.take len ++ splitValue (bs.drop len)).length
          < len / 256 * 256 + len % 256 := by
        simp only [List.length_append, htl, h256]
        omega
      have hdrop : (bs.take len ++ splitValue (bs.drop len)).drop len
          = splitValue (bs.drop len) := by
        exact List.drop_left' htl
      simp only [h256] at hge ⊢
      rw [dif_neg (by omega : ¬ len = 0), if_neg hge, hdrop, hc]
      simp
    · simp only [List.sum_cons, hsum, List.length_drop]
      omega
    · intro l hl
      rcases List.mem_cons.mp hl with h | h
      · omega
      · exact hmax l h

/-- Every split stream ends with the `(0,0)` terminator chunk. -/
theorem splitValue_terminator (bs : List Nat) : ∃ p, splitValue bs = p ++ [0, 0] := by
  induction bs using splitValue.induct with
  | case1 => exact ⟨[], by rw [splitValue]; simp⟩
  | case2 bs hne len ih =>
    obtain ⟨p, hp⟩ := ih
    refine ⟨(len / 256) :: (len % 256) :: (bs.take len ++ p), ?_⟩
    rw [splitValue]
    simp only [if_neg hne, hp]
    simp

/-- Decoding a LONG value byte pattern recovers the signed view of the
64-bit word. -/
theorem valueToLong_long_pattern (w : Nat) (hw : w < 18446744073709551616) :
    CStore_valueToLong (106 :: bytesBE 8 w) = some (toSigned 64 w) := by
  simp only [bytesBE, List.nil_append, List.cons_append]
  simp only [CStore_valueToLong, assembleBE, List.foldl, Option.some.injEq]
  congr 1
  omega

/-- Decoding an INTEGER value byte pattern recovers the signed view of the
32-bit word (the decoder's `int` arithmetic sign extends). -/
theorem valueToLong_int_pattern (w : Nat) (hw : w < 4294967296) :
    CStore_valueToLong (105 :: bytesBE 4 w) = some (toSigned 32 w) := by
  simp only [bytesBE, List.nil_append, List.cons_append]
  simp only [CStore_valueToLong, assembleBE, List.foldl, Option.some.injEq]
  norm_num
  congr 1
  omega

/-- The 64-bit pattern of any integer is below 2^64. -/
theorem bitsOf_64_lt (v : Int) : bitsOf 64 v < 18446744073709551616 := by
  unfold bitsOf
  simp only [show ((2 : Int) ^ (64 : Nat)) = 18446744073709551616 from by norm_num]
  omega

/-- Signed reinterpretation inverts the 64-bit pattern on the `jlong` range. -/
theorem toSigned_64_bitsOf (v : Int) (h1 : -9223372036854775808 ≤ v)
    (h2 : v < 9223372036854775808) : toSigned 64 (bitsOf 64 v) = v := by
  unfold toSigned bitsOf
  simp only [show ((2 : Int) ^ (64 : Nat)) = 18446744073709551616 from by norm_num,
    show ((2 : Nat) ^ (64 - 1)) = 9223372036854775808 from by norm_num]
  split_ifs <;> omega

/-- The 32-bit pattern of any integer is below 2^32. -/
theorem bitsOf_32_lt (v : Int) : bitsOf 32 v < 4294967296 := by
  unfold bitsOf
  simp only [show ((2 : Int) ^ (32 : Nat)) = 4294967296 from by norm_num]
  omega

/-- Signed reinterpretation inverts the 32-bit pattern on the `jint` range. -/
theorem toSigned_32_bitsOf (v : Int) (h1 : -2147483648 ≤ v) (h2 : v < 2147483648) :
    toSigned 32 (bitsOf 32 v) = v := by
  unfold toSigned bitsOf
  simp only [show ((2 : Int) ^ (32 : Nat)) = 4294967296 from by norm_num,
    show ((2 : Nat) ^ (32 - 1)) = 2147483648 from by norm_num]
  split_ifs <;> omega

/-- C5, counterexample: the SHORT accessor path does not sign extend, so the
short value -1 decodes to 65535, not to the original value. -/
theorem C5_counterexample :
    CStore_valueToLong (CStore_newValueShort (-1)) = some 65535
      ∧ ¬ ((65535 : Int) = -1) := by
  constructor
  · decide
  · decide

/-- C5 (amended): decode-of-encode is bit exact (returns the original value)
for LONG, INTEGER, BYTE and BOOLEAN; for SHORT the accessor returns the
unsigned 16-bit reinterpretation `v mod 2^16` (so negative shorts are not
recovered); and for every STRING or BYTE_ARRAY payload the chunk lengths of
the encoded stream sum to the payload length, each chunk is at most 65534
bytes, and the stream ends with the zero-length `(0,0)` chunk. -/
theorem C5_amended :
    (∀ v : Int, -9223372036854775808 ≤ v → v < 9223372036854775808 →
        CStore_valueToLong (CStore_newValueLong v) = some v)
      ∧ (∀ v : Int, -2147483648 ≤ v → v < 2147483648 →
          CStore_valueToLong (CStore_newValueInteger v) = some v)
      ∧ (∀ v : Int, -128 ≤ v → v < 128 →
          CStore_valueToLong (CStore_newValueByte v) = some v)
      ∧ (∀ v : Int, v = 0 ∨ v = 1 →
          CStore_valueToLong (CStore_newValueBoolean v) = some v)
      ∧ (∀ v : Int, -32768 ≤ v → v < 32768 →
          CStore_valueToLong (CStore_newValueShort v) = some (v % 65536))
      ∧ (∀ bs : List Nat,
          (CStore_newValueString bs).drop 1 = splitValue bs
            ∧ (CStore_newValueByteArray bs).drop 1 = splitValue bs
            ∧ (∃ ls, chunkLens (splitValue bs) = some ls ∧ ls.sum = bs.length
                ∧ ∀ l ∈ ls, l ≤ maxBytesBlock)
            ∧ ∃ p, splitValue bs = p ++ [0, 0]) := by
  refine ⟨?_, ?_, ?_, ?_, ?_, ?_⟩
  · intro v h1 h2
    unfold CStore_newValueLong
    rw [valueToLong_long_pattern _ (bitsOf_64_lt v), toSigned_64_bitsOf v h1 h2]
  · intro v h1 h2
    unfold CStore_newValueInteger
    rw [valueToLong_int_pattern _ (bitsOf_32_lt v), toSigned_32_bitsOf v h1 h2]
  · intro v h1 h2
    unfold CStore_newValueByte
    simp only [CStore_valueToLong, Option.some.injEq]
    unfold toSigned bitsOf
    simp only [show ((2 : Int) ^ (8 : Nat)) = 256 from by norm_num,
      show ((2 : Nat) ^ (8 - 1)) = 128 from by norm_num]
    split_ifs <;> omega
  · intro v h
    rcases h with rfl | rfl <;> decide
  · intro v h1 h2
    unfold CStore_newValueShort
    simp only [bytesBE, List.nil_append, List.cons_append]
    simp only [CStore_valueToLong, Option.some.injEq]
    have hl : bitsOf 16 v < 65536 := by
      unfold bitsOf
      simp only [show ((2 : Int) ^ (16 : Nat)) = 65536 from by norm_num]
      omega
    have hv : (bitsOf 16 v : Int) = v % 65536 := by
      unfold bitsOf
      simp only [show ((2 : Int) ^ (16 : Nat)) = 65536 from by norm_num]
      omega
    push_cast
    omega
  · intro bs
    exact ⟨rfl, rfl, splitValue_chunks bs, splitValue_terminator bs⟩

/-- C5, witness: the amended theorem applied at concrete values. -/
theorem C5_witness :
    CStore_valueToLong (CStore_newValueLong 123456789012345) = some 123456789012345
      ∧ CStore_valueToLong (CStore_newValueInteger (-2)) = some (-2)
      ∧ CStore_valueToLong (CStore_newValueByte (-3)) = some (-3)
      ∧ CStore_valueToLong (CStore_newValueBoolean 1) = some 1
      ∧ CStore_valueToLong (CStore_newValueShort (-2)) = some ((-2) % 65536) :=
  ⟨C5_amended.1 123456789012345 (by norm_num) (by norm_num),
    C5_amended.2.1 (-2) (by norm_num) (by norm_num),
    C5_amended.2.2.1 (-3) (by norm_num) (by norm_num),
    C5_amended.2.2.2.1 1 (Or.inr rfl),
    C5_amended.2.2.2.2.1 (-2) (by norm_num) (by norm_num)⟩

/-- C6 (amended): reservation versus bytes actually written.  With
`t = L + (L/65534 + 1)*2`, the reservation is `t` plus two exactly when `t`
is not a multiple of 65534, while the written length is `t` plus two exactly
when `L` is not a multiple of 65534.  In particular the reservation exceeds
the written length by two whenever `L` is a multiple of 65534 (including 0)
and `t` is not, matches it when both or neither condition holds, and falls
two bytes short when `L` is not a multiple of 65534 but `t` is. -/
theorem C6_amended (bs : List Nat) :
    splitLength bs.length + (if bs.length % maxBytesBlock = 0 then 0 else 2)
      = (splitValue bs).length
        + (if (bs.length + (bs.length / maxBytesBlock + 1) * 2) % maxBytesBlock = 0 then 0
           else 2) := by
  rw [splitValue_length]
  simp only [splitLength, maxBytesBlock]
  split_ifs <;> omega

/-- C7, counterexample: a closed context with the latched status
`SERVER_CLOSED` does not short-circuit `rvpf_ssl_open`; the call proceeds and
replaces the latch with `BAD_ADDRESS` for a colon-free address. -/
theorem C7_counterexample :
    (rvpf_ssl_open ⟨[], 0, false, Status.serverClosed⟩
        (some ['n', 'o', 'c', 'o', 'l', 'o', 'n']) Status.ok).status = Status.badAddress
      ∧ ¬ (Status.badAddress = Status.serverClosed) := by
  constructor
  · rfl
  · decide

/-- C7 (amended): on a failed TLS-stream context, `send` and `receive`
short-circuit without any effect and without changing the latched status until
`clearError`; `open`, however, does not: on an open context it overwrites the
latched status with `ILLEGAL_STATE`, and on a closed context it behaves
exactly as it would with a clean status, discarding the latch. -/
theorem C7_amended :
    (∀ (c : Context) (bufferNull : Bool) (size : Nat) (recvCount : Int),
        rvpf_ssl_failed c = true → rvpf_ssl_receive c bufferNull size recvCount = (0, c))
      ∧ (∀ (c : Context) (bufferNull : Bool) (size : Nat) (sendCount : Int),
          rvpf_ssl_failed c = true → rvpf_ssl_send c bufferNull size sendCount = (0, c))
      ∧ (∀ (c : Context) (address : Option (List Char)) (connectResult : Status),
          c.isOpen = true →
            rvpf_ssl_open c address connectResult = { c with status := Status.illegalState })
      ∧ (∀ (c : Context) (address : Option (List Char)) (connectResult : Status),
          c.isOpen = false →
            rvpf_ssl_open c address connectResult
              = rvpf_ssl_open { c with status := Status.ok } address connectResult) := by
  refine ⟨?_, ?_, ?_, ?_⟩
  · intro c bufferNull size recvCount h
    simp [rvpf_ssl_receive, h]
  · intro c bufferNull size sendCount h
    simp [rvpf_ssl_send, h]
  · intro c address connectResult h
    simp [rvpf_ssl_open, h]
  · intro c address connectResult h
    cases hpa : parseAddress address <;> simp [rvpf_ssl_open, h, hpa]

/-- C7, witness: the amended theorem applied at concrete inputs. -/
theorem C7_witness :
    rvpf_ssl_receive ⟨[], 0, false, Status.askErr⟩ false 1 1 = (0, ⟨[], 0, false, Status.askErr⟩)
      ∧ rvpf_ssl_send ⟨[], 0, false, Status.askErr⟩ false 1 1 = (0, ⟨[], 0, false, Status.askErr⟩)
      ∧ rvpf_ssl_open ⟨[], 0, true, Status.askErr⟩ none Status.ok
          = { host := [], port := 0, isOpen := true, status := Status.illegalState }
      ∧ rvpf_ssl_open ⟨[], 0, false, Status.askErr⟩ none Status.ok
          = rvpf_ssl_open ⟨[], 0, false, Status.ok⟩ none Status.ok :=
  ⟨C7_amended.1 ⟨[], 0, false, Status.askErr⟩ false 1 1 (by decide),
    C7_amended.2.1 ⟨[], 0, false, Status.askErr⟩ false 1 1 (by decide),
    C7_amended.2.2.1 ⟨[], 0, true, Status.askErr⟩ none Status.ok (by decide),
    C7_amended.2.2.2 ⟨[], 0, false, Status.askErr⟩ none Status.ok (by decide)⟩

/-- The acknowledgement check yields MISMATCHED_ID exactly when the line is
well framed and its parsed ref differs from the expected id. -/
theorem verifyStatus_mismatch_iff (line : List Char) (expected : Nat) :
    verifyStatus line expected = .mismatchedId
      ↔ ∃ n, parseDone line = some n ∧ n ≠ expected := by
  unfold verifyStatus parseDone
  cases h1 : chopText responseStart line with
  | none => simp
  | some r1 =>
    cases h2 : chopText responseEnd (r1.dropWhile Char.isDigit) with
    | none => simp [h2]
    | some r2 =>
      by_cases h : digitsToNat (r1.takeWhile Char.isDigit) ≠ expected
      · simp [h2, h]
      · push_neg at h
        simp [h2, h]

/-- A session context has not failed exactly when its status is OK and its
transport is alive. -/
theorem not_failed_iff (c : Ctx) :
    xpvpc_failed c = false ↔ (c.status = .ok ∧ c.sslOk = true) := by
  unfold xpvpc_failed
  rcases c with ⟨i, p, st, so, sk⟩
  cases st <;> cases sk <;> simp

/-- A flush preserves the id/document accounting of an unfailed session. -/
theorem flushOp_pres (s : Sess) (h : okSess s → idDocsInv s)
    (hok : okSess (flushOp s)) : idDocsInv (flushOp s) := by
  by_cases hf : xpvpc_failed s.ctx
  · rw [flushOp, if_pos hf] at hok ⊢
    exact h hok
  · simp only [Bool.not_eq_true] at hf
    have hso : s.ctx.status = .ok ∧ s.ctx.sslOk = true := (not_failed_iff s.ctx).mp hf
    have hJ : idDocsInv s := h ⟨hso.1, hso.2⟩
    by_cases ho : s.ctx.sslOpen
    · by_cases hp : s.ctx.pending ≠ 0
      · rw [flushOp, if_neg (by simp [hf]), if_neg (by simp [ho]), if_pos hp] at hok ⊢
        rw [show sendText s = { s with sendCount := s.sendCount + 1 } from by
          simp [sendText, hf]] at hok ⊢
        rw [verifyResponse] at hok ⊢
        simp only [hso.1, hso.2] at hok ⊢
        norm_num at hok ⊢
        cases hr : s.responses with
        | nil =>
          simp only [hr] at hok
          simp [okSess] at hok
        | cons l rest =>
          simp only [hr] at hok ⊢
          simp only [okSess, idDocsInv] at hok ⊢
          simp at hok ⊢
          exact ⟨hJ.1, hJ.2.1, by rw [hJ.2.2]⟩
      · rw [flushOp, if_neg (by simp [hf]), if_neg (by simp [ho]), if_neg hp] at hok ⊢
        exact h hok
    · rw [flushOp, if_neg (by simp [hf]), if_pos (by simp [ho])] at hok
      rcases hok with ⟨hok1, _⟩
      simp at hok1

/-- A login preserves the id/document accounting of an unfailed session. -/
theorem loginOp_pres (s : Sess) (h : okSess s → idDocsInv s)
    (hok : okSess (loginOp s)) : idDocsInv (loginOp s) := by
  by_cases hf : xpvpc_failed s.ctx
  · rw [loginOp, if_pos hf] at hok ⊢
    exact h hok
  · by_cases ho : s.ctx.sslOpen
    · rw [loginOp, if_neg (by simp [hf]), if_neg (by simp [ho])] at hok ⊢
      by_cases hfl : (flushOp s).ctx.status = XStatus.ok ∧ (flushOp s).ctx.sslOk = true
      · have hJ1 : idDocsInv (flushOp s) := flushOp_pres s h hfl
        rw [if_pos (by simpa using hfl)] at hok ⊢
        rw [show sendText
              { flushOp s with
                ctx := { (flushOp s).ctx with id := (flushOp s).ctx.id + 1 },
                docs := (flushOp s).docs ++ [(flushOp s).ctx.id + 1] }
            = { flushOp s with
                ctx := { (flushOp s).ctx with id := (flushOp s).ctx.id + 1 },
                docs := (flushOp s).docs ++ [(flushOp s).ctx.id + 1],
                sendCount := (flushOp s).sendCount + 1 } from by
          simp [sendText, xpvpc_failed, hfl.1, hfl.2]] at hok ⊢
        rw [verifyResponse] at hok ⊢
        simp only [hfl.1, hfl.2] at hok ⊢
        norm_num at hok ⊢
        cases hr : (flushOp s).responses with
        | nil =>
          simp only [hr] at hok
          simp [okSess] at hok
        | cons l rest =>
          simp only [hr] at hok ⊢
          simp only [okSess, idDocsInv] at hok ⊢
          simp at hok ⊢
          refine ⟨by rw [hJ1.1], ?_, by rw [hJ1.2.2]⟩
          rw [hJ1.1, hJ1.2.1]
          rw [show (List.range' 1 (flushOp s).docs.length).length + 1
              = (flushOp s).docs.length + 1 from by simp]
          rw [List.range'_concat]
          simp [Nat.add_comm]
      · rw [if_neg (by simpa using hfl)] at hok ⊢
        exact absurd ⟨hok.1, hok.2⟩ hfl
    · rw [loginOp, if_neg (by simp [hf]), if_pos (by simp [ho])] at hok
      rcases hok with ⟨hok1, _⟩
      simp at hok1

/-- A sendValue preserves the id/document accounting of an unfailed
session. -/
theorem sendValueOp_pres (a : Int) (s : Sess) (argsOk : Bool)
    (h : okSess s → idDocsInv s) (hok : okSess (sendValueOp a s argsOk)) :
    idDocsInv (sendValueOp a s argsOk) := by
  by_cases hf : xpvpc_failed s.ctx
  · rw [sendValueOp, if_pos hf] at hok ⊢
    exact h hok
  · by_cases ho : s.ctx.sslOpen
    · by_cases hargs : argsOk
      · rw [sendValueOp, if_neg (by simp [hf]), if_neg (by simp [ho]),
          if_neg (by simp [hargs])] at hok ⊢
        simp only [Bool.not_eq_true] at hf
        have hso : s.ctx.status = .ok ∧ s.ctx.sslOk = true := (not_failed_iff s.ctx).mp hf
        have hJ : idDocsInv s := h ⟨hso.1, hso.2⟩
        by_cases hp : s.ctx.pending = 0
        · rw [if_pos hp] at hok ⊢
          have hmid : okSess { s with
                ctx := { s.ctx with id := s.ctx.id + 1, pending := 0 + 1 },
                docs := s.docs ++ [s.ctx.id + 1] }
              → idDocsInv { s with
                ctx := { s.ctx with id := s.ctx.id + 1, pending := 0 + 1 },
                docs := s.docs ++ [s.ctx.id + 1] } := by
            intro _
            simp only [idDocsInv] at hJ ⊢
            simp
            refine ⟨by rw [hJ.1], ?_, hJ.2.2⟩
            rw [hJ.1, hJ.2.1]
            rw [show (List.range' 1 (s.docs.length)).length + 1 = s.docs.length + 1 from by simp]
            rw [List.range'_concat]
            simp [Nat.add_comm]
          simp only [hp] at hok ⊢
          by_cases hauto : a > 0 ∧ ((0 + 1 : Nat) : Int) ≥ a
          · rw [if_pos hauto] at hok ⊢
            exact flushOp_pres _ hmid hok
          · rw [if_neg hauto] at hok ⊢
            exact hmid hok
        · rw [if_neg hp] at hok ⊢
          have hmid : okSess { s with ctx := { s.ctx with pending := s.ctx.pending + 1 } }
              → idDocsInv { s with ctx := { s.ctx with pending := s.ctx.pending + 1 } } := by
            intro _
            simp only [idDocsInv] at hJ ⊢
            simpa using hJ
          by_cases hauto : a > 0 ∧ ((s.ctx.pending + 1 : Nat) : Int) ≥ a
          · rw [if_pos hauto] at hok ⊢
            exact flushOp_pres _ hmid hok
          · rw [if_neg hauto] at hok ⊢
            exact hmid hok
      · rw [sendValueOp, if_neg (by simp [hf]), if_neg (by simp [ho]),
          if_pos (by simp [hargs])] at hok
        rcases hok with ⟨hok1, _⟩
        simp at hok1
    · rw [sendValueOp, if_neg (by simp [hf]), if_pos (by simp [ho])] at hok
      rcases hok with ⟨hok1, _⟩
      simp at hok1

/-- Any single operation preserves the accounting of an unfailed session. -/
theorem step_pres (a : Int) (s : Sess) (op : Op) (h : okSess s → idDocsInv s) :
    okSess (step a s op) → idDocsInv (step a s op) := by
  cases op with
  | login => exact loginOp_pres s h
  | sendValue argsOk => exact sendValueOp_pres a s argsOk h
  | flush => exact flushOp_pres s h

/-- Any operation sequence preserves the accounting of an unfailed
session. -/
theorem run_pres (a : Int) (ops : List Op) : ∀ (s : Sess), (okSess s → idDocsInv s) →
    okSess (run a s ops) → idDocsInv (run a s ops) := by
  induction ops with
  | nil => intro s h; exact h
  | cons op ops ih =>
    intro s h
    rw [run]
    exact ih (step a s op) (step_pres a s op h)

/-- C8 (amended): in every XPVPC session run in which no operation has
failed, the document id counter (starting at zero) has been pre-incremented
exactly once per emitted document - the ids are 1, 2, ..., n in emission
order, one per login and one per lazily opened messages batch, none for a
flush with no pending elements - and exactly one acknowledgement line has
been read per send; after each send the client sets MISMATCHED_ID if and
only if the parsed ref number of the acknowledgement differs from the id of
the document just sent.  (When the flush at the start of a login fails, the
counter is still pre-incremented although no login document is emitted; the
no-failure hypothesis excludes that path.) -/
theorem C8_amended (a : Int) (rs : List (List Char)) (ops : List Op)
    (h1 : (run a (initialSess rs) ops).ctx.status = XStatus.ok)
    (h2 : (run a (initialSess rs) ops).ctx.sslOk = true) :
    ((run a (initialSess rs) ops).ctx.id = (run a (initialSess rs) ops).docs.length
      ∧ (run a (initialSess rs) ops).docs
          = List.range' 1 (run a (initialSess rs) ops).docs.length
      ∧ (run a (initialSess rs) ops).readCount = (run a (initialSess rs) ops).sendCount)
    ∧ ∀ (line : List Char) (expected : Nat),
        verifyStatus line expected = .mismatchedId
          ↔ ∃ n, parseDone line = some n ∧ n ≠ expected := by
  constructor
  · exact run_pres a ops (initialSess rs) (fun _ => by simp [initialSess, idDocsInv]) ⟨h1, h2⟩
  · intro line expected
    exact verifyStatus_mismatch_iff line expected

/-- C8, counterexample: send a value (batch document id 1), then login while
the server acknowledges with the wrong ref 9.  The flush performed at the
start of the login latches MISMATCHED_ID, yet `++context->id` in the login
still runs: the counter ends at 2 with only one document ever emitted, so
the counter is not incremented exactly once per emitted document. -/
theorem C8_counterexample :
    (run 0 (initialSess ["<done ref='9'/>".toList]) [Op.sendValue true, Op.login]).ctx.id = 2
      ∧ (run 0 (initialSess ["<done ref='9'/>".toList]) [Op.sendValue true, Op.login]).docs
          = [1]
      ∧ ¬ ((2 : Nat) = 1) := by
  refine ⟨by decide, by decide, by decide⟩

/-- C8, witness: the amended theorem applied to a concrete successful run
(one batch of one value, a flush, then a login, with matching acks 1 and
2). -/
theorem C8_witness :
    ((run 0 (initialSess ["<done ref='1'/>".toList, "<done ref='2'/>".toList])
        [Op.sendValue true, Op.flush, Op.login]).ctx.id
      = (run 0 (initialSess ["<done ref='1'/>".toList, "<done ref='2'/>".toList])
        [Op.sendValue true, Op.flush, Op.login]).docs.length
      ∧ (run 0 (initialSess ["<done ref='1'/>".toList, "<done ref='2'/>".toList])
          [Op.sendValue true, Op.flush, Op.login]).docs
        = List.range' 1 (run 0 (initialSess ["<done ref='1'/>".toList, "<done ref='2'/>".toList])
            [Op.sendValue true, Op.flush, Op.login]).docs.length
      ∧ (run 0 (initialSess ["<done ref='1'/>".toList, "<done ref='2'/>".toList])
          [Op.sendValue true, Op.flush, Op.login]).readCount
        = (run 0 (initialSess ["<done ref='1'/>".toList, "<done ref='2'/>".toList])
          [Op.sendValue true, Op.flush, Op.login]).sendCount)
    ∧ ∀ (line : List Char) (expected : Nat),
        verifyStatus line expected = .mismatchedId
          ↔ ∃ n, parseDone line = some n ∧ n ≠ expected :=
  C8_amended 0 ["<done ref='1'/>".toList, "<done ref='2'/>".toList]
    [Op.sendValue true, Op.flush, Op.login] (by decide) (by decide)

/-- Reaching the auto-flush threshold on sendValue flushes the batch. -/
theorem sendValueOp_autoflush (a : Int) (s : Sess)
    (h1 : s.ctx.status = XStatus.ok) (h2 : s.ctx.sslOk = true) (h3 : s.ctx.sslOpen = true)
    (ha : 0 < a) (hp : (s.ctx.pending : Int) + 1 ≥ a) :
    (sendValueOp a s true).ctx.pending = 0
      ∧ (sendValueOp a s true).sendCount = s.sendCount + 1 := by
  rcases s with ⟨⟨i, pend, st, so, sk⟩, resp, docs, sc, rc⟩
  simp only at h1 h2 h3 hp
  subst h1
  subst h2
  subst h3
  unfold sendValueOp xpvpc_failed
  simp [flushOp, sendText, verifyResponse, xpvpc_failed]
  by_cases hp0 : pend = 0
  · subst hp0
    simp
    split_ifs with hc
    · cases resp <;> simp
    · omega
  · simp [hp0]
    split_ifs with hc
    · cases resp <;> simp
    · push_cast at hp hc
      omega

/-- C10: the auto-flush threshold is process-global, not per context.  After
`rvpf_xpvpc_setAutoFlush(c1, n)` with n >= 1, a `sendValue` on the other
context c2 whose pending-element count reaches n triggers an automatic flush
of c2 - the batch close is transmitted and c2's pending count resets -
even though setAutoFlush was never called on c2. -/
theorem C10_thm (n : Int) (hn : 1 ≤ n) (p : Proc)
    (hok : p.sessB.ctx.status = XStatus.ok) (hsk : p.sessB.ctx.sslOk = true)
    (hop : p.sessB.ctx.sslOpen = true)
    (hpend : (p.sessB.ctx.pending : Int) + 1 ≥ n) :
    (rvpf_xpvpc_sendValue_onB (rvpf_xpvpc_setAutoFlush_onA p n) true).sessB.ctx.pending = 0
      ∧ (rvpf_xpvpc_sendValue_onB (rvpf_xpvpc_setAutoFlush_onA p n) true).sessB.sendCount
          = p.sessB.sendCount + 1 :=
  sendValueOp_autoflush n p.sessB hok hsk hop (by omega) hpend

/-- C10, witness: the theorem applied at threshold 1 with concrete
contexts. -/
theorem C10_witness :
    (rvpf_xpvpc_sendValue_onB
        (rvpf_xpvpc_setAutoFlush_onA
          (Proc.mk 0 (initialSess []) (initialSess ["<done ref='1'/>".toList])) 1)
        true).sessB.ctx.pending = 0
      ∧ (rvpf_xpvpc_sendValue_onB
          (rvpf_xpvpc_setAutoFlush_onA
            (Proc.mk 0 (initialSess []) (initialSess ["<done ref='1'/>".toList])) 1)
          true).sessB.sendCount
        = (Proc.mk 0 (initialSess []) (initialSess ["<done ref='1'/>".toList])).sessB.sendCount
            + 1 :=
  C10_thm 1 (by norm_num)
    (Proc.mk 0 (initialSess []) (initialSess ["<done ref='1'/>".toList]))
    rfl rfl rfl (by norm_num)

end RVPF
